import Mathlib

/-!
# The evm module invariants (x/evm/keeper/invariants.go)

A shallow embedding of `BalanceInvariant` and `NonceInvariant`.

* The closure handed to `IterateAccounts` mutates the captured variables `msg` and `count`;
  here it is a function on an explicit accumulator `Acc`, returning the new accumulator
  together with the closure's boolean result (the "stop" signal).
* `count` is a Go `int`. It is incremented at most once per traversed account and a
  traversal has far fewer than 2^63 accounts, so it never wraps and is a `Nat` here.
* `Sequence` and the EVM nonce are `uint64`; they are only compared and printed, so they
  are `Nat`. `sdk.Int` and `*big.Int` amounts are `Int`.
* `fmt.Sprintf` with the verbs `%s` and `%d` is string concatenation with decimal rendering.
* What lives outside invariants.go (coins lookup, address rendering, address derivation,
  `FormatInvariant`, the module name) is taken as a parameter, bundled in `Deps`.
* For the properties on state, the checks are also given in state-passing form on a
  `World`: the stores together with a record of the accessor calls. The accessors
  `GetParams`, `GetBalance` and `GetNonce` are reads: they return the world's stores as
  they found them.
* The registry of `RegisterInvariants` is the list of the routes registered so far.
-/

namespace Keeper

/-- Bytes of an `sdk.AccAddress`. -/
abbrev AccAddress := List Nat

/-- Bytes of an `ethcmn.Address`, the key of the EVM state. -/
abbrev Address := List Nat

/-- An `sdk.Coin`: a denomination and an amount. -/
structure Coin where
  Denom : String
  Amount : Int
  deriving DecidableEq, Repr

/-- An `sdk.Coins` value. -/
abbrev Coins := List Coin

/-- The fields of `auth.BaseAccount` that the checks read. -/
structure BaseAccount where
  Address : AccAddress
  Coins : Coins
  Sequence : Nat
  deriving DecidableEq, Repr

/-- An `ethermint.EthAccount`: a base account and a code hash. -/
structure EthAccount where
  base : BaseAccount
  CodeHash : List Nat
  deriving DecidableEq, Repr

/-- A value of the interface `authexported.Account`: its dynamic type is either
`*ethermint.EthAccount` or some other account type. -/
inductive Account where
  | eth (a : EthAccount)
  | other (b : BaseAccount)
  deriving DecidableEq, Repr

/-- The method `account.GetAddress()`. -/
def Account.GetAddress : Account → AccAddress
  | .eth a => a.base.Address
  | .other b => b.Address

/-- The type assertion `account.(*ethermint.EthAccount)`: `some` when `ok` is true. -/
def Account.asEthAccount : Account → Option EthAccount
  | .eth a => some a
  | .other _ => none

/-- The module parameters, of which the checks read `EvmDenom`. -/
structure Params where
  EvmDenom : String
  deriving DecidableEq, Repr

/-- Functions used by invariants.go and defined outside it. -/
structure Deps where
  /-- The method `sdk.Coins.AmountOf`. -/
  AmountOf : Coins → String → Int
  /-- The rendering of an `sdk.AccAddress` under the verb `%s`. -/
  AddressString : AccAddress → String
  /-- The method `EthAccount.EthAddress`: the derived address. -/
  EthAddress : EthAccount → Address
  /-- The function `sdk.FormatInvariant (module, name, msg)`. -/
  FormatInvariant : String → String → String → String
  /-- The constant `types.ModuleName`. -/
  ModuleName : String

/-- What the checks read through the `sdk.Context`: the account store in iteration order,
the stored parameters, and the EVM state's balances and nonces. -/
structure Context where
  accounts : List Account
  params : Params
  balances : Address → Int
  nonces : Address → Nat

/-- The call `k.GetParams(ctx)`. -/
def GetParams (ctx : Context) : Params := ctx.params

/-- The call `k.GetBalance(ctx, addr)`. -/
def GetBalance (ctx : Context) (addr : Address) : Int := ctx.balances addr

/-- The call `k.GetNonce(ctx, addr)`. -/
def GetNonce (ctx : Context) (addr : Address) : Nat := ctx.nonces addr

/-- The method `accountKeeper.IterateAccounts(ctx, cb)`: calls `cb` on each account in
store order and breaks out of the loop as soon as `cb` returns true. -/
def IterateAccounts {σ : Type} (accounts : List Account)
    (cb : Account → σ → σ × Bool) (s : σ) : σ :=
  match accounts with
  | [] => s
  | account :: rest =>
    let r := cb account s
    if r.2 then r.1 else IterateAccounts rest cb r.1

/-- The method `(*big.Int).Cmp`: -1, 0 or +1. -/
def Cmp (x y : Int) : Int :=
  if x < y then -1 else if x = y then 0 else 1

/-- The constant `balanceInvariant`. -/
def balanceInvariant : String := "balance"

/-- The constant `nonceInvariant`. -/
def nonceInvariant : String := "nonce"

/-- The captured variables `msg` and `count` of a check. -/
structure Acc where
  msg : String
  count : Nat
  deriving DecidableEq, Repr

/-- The declaration `var (msg string; count int)`: both start at their zero value. -/
def Acc.init : Acc := ⟨"", 0⟩

/-- The call `fmt.Sprintf` with the format string
"\tbalance mismatch for address %s: account balance %s, evm balance %s\n". -/
def balanceMismatchMsg (address accountBalance evmBalance : String) : String :=
  "\tbalance mismatch for address " ++ address ++ ": account balance " ++ accountBalance
    ++ ", evm balance " ++ evmBalance ++ "\n"

/-- The call `fmt.Sprintf` with the format string
"\nonce mismatch for address %s: account nonce %d, evm nonce %d\n", whose first two
characters are the escape for a line feed. -/
def nonceMismatchMsg (address : String) (sequence evmNonce : Nat) : String :=
  "\nonce mismatch for address " ++ address ++ ": account nonce " ++ toString sequence
    ++ ", evm nonce " ++ toString evmNonce ++ "\n"

/-- The closure that `BalanceInvariant` passes to `IterateAccounts`. -/
def balanceCallback (d : Deps) (ctx : Context) (account : Account) (s : Acc) : Acc × Bool :=
  match account.asEthAccount with
  | none => (s, false)
  | some ethAccount =>
    let evmDenom := (GetParams ctx).EvmDenom
    let accountBalance := d.AmountOf ethAccount.base.Coins evmDenom
    let evmBalance := GetBalance ctx (d.EthAddress ethAccount)
    if Cmp evmBalance accountBalance ≠ 0 then
      (⟨s.msg ++ balanceMismatchMsg (d.AddressString account.GetAddress)
          (toString accountBalance) (toString evmBalance), s.count + 1⟩, false)
    else
      (s, false)

/-- The closure that `NonceInvariant` passes to `IterateAccounts`. -/
def nonceCallback (d : Deps) (ctx : Context) (account : Account) (s : Acc) : Acc × Bool :=
  match account.asEthAccount with
  | none => (s, false)
  | some ethAccount =>
    let evmNonce := GetNonce ctx (d.EthAddress ethAccount)
    if evmNonce ≠ ethAccount.base.Sequence then
      (⟨s.msg ++ nonceMismatchMsg (d.AddressString account.GetAddress)
          ethAccount.base.Sequence evmNonce, s.count + 1⟩, false)
    else
      (s, false)

/-- The variables `msg` and `count` of `BalanceInvariant` once `IterateAccounts` returns. -/
def balanceAcc (d : Deps) (ctx : Context) : Acc :=
  IterateAccounts ctx.accounts (balanceCallback d ctx) Acc.init

/-- The variables `msg` and `count` of `NonceInvariant` once `IterateAccounts` returns. -/
def nonceAcc (d : Deps) (ctx : Context) : Acc :=
  IterateAccounts ctx.accounts (nonceCallback d ctx) Acc.init

/-- The call `fmt.Sprintf("account balances mismatches found %d\n%s", count, msg)`. -/
def balanceBody (s : Acc) : String :=
  "account balances mismatches found " ++ toString s.count ++ "\n" ++ s.msg

/-- The call `fmt.Sprintf("account nonces mismatches found %d\n%s", count, msg)`. -/
def nonceBody (s : Acc) : String :=
  "account nonces mismatches found " ++ toString s.count ++ "\n" ++ s.msg

/-- The invariant returned by `k.BalanceInvariant()`, applied to a context. -/
def BalanceInvariant (d : Deps) (ctx : Context) : String × Bool :=
  let s := balanceAcc d ctx
  let broken := s.count != 0
  (d.FormatInvariant d.ModuleName balanceInvariant (balanceBody s), broken)

/-- The invariant returned by `k.NonceInvariant()`, applied to a context. -/
def NonceInvariant (d : Deps) (ctx : Context) : String × Bool :=
  let s := nonceAcc d ctx
  let broken := s.count != 0
  (d.FormatInvariant d.ModuleName nonceInvariant (nonceBody s), broken)


/-! ## The checks with the state they run on made explicit -/

/-- A call of a keeper accessor made while a check runs. -/
inductive Call where
  | GetParams
  | GetBalance (addr : Address)
  | GetNonce (addr : Address)
  deriving DecidableEq, Repr

/-- The state a check runs on, threaded through every call: the stores read through the
context, and a record of the accessor calls made so far, oldest first. -/
structure World where
  ctx : Context
  calls : List Call

/-- The call `k.GetParams(ctx)` as a step on the world: it returns the stored parameters. -/
def GetParamsM (w : World) : Params × World :=
  (GetParams w.ctx, ⟨w.ctx, w.calls ++ [Call.GetParams]⟩)

/-- The call `k.GetBalance(ctx, addr)` as a step on the world. -/
def GetBalanceM (w : World) (addr : Address) : Int × World :=
  (GetBalance w.ctx addr, ⟨w.ctx, w.calls ++ [Call.GetBalance addr]⟩)

/-- The call `k.GetNonce(ctx, addr)` as a step on the world. -/
def GetNonceM (w : World) (addr : Address) : Nat × World :=
  (GetNonce w.ctx addr, ⟨w.ctx, w.calls ++ [Call.GetNonce addr]⟩)

/-- The closure of `BalanceInvariant`, statement by statement, on the captured variables
and the world. -/
def balanceCallbackM (d : Deps) (account : Account) (s : Acc × World) : (Acc × World) × Bool :=
  match account.asEthAccount with
  | none => (s, false)
  | some ethAccount =>
    let p := GetParamsM s.2
    let evmDenom := p.1.EvmDenom
    let accountBalance := d.AmountOf ethAccount.base.Coins evmDenom
    let b := GetBalanceM p.2 (d.EthAddress ethAccount)
    let evmBalance := b.1
    if Cmp evmBalance accountBalance ≠ 0 then
      ((⟨s.1.msg ++ balanceMismatchMsg (d.AddressString account.GetAddress)
          (toString accountBalance) (toString evmBalance), s.1.count + 1⟩, b.2), false)
    else
      ((s.1, b.2), false)

/-- The closure of `NonceInvariant`, statement by statement, on the captured variables
and the world. -/
def nonceCallbackM (d : Deps) (account : Account) (s : Acc × World) : (Acc × World) × Bool :=
  match account.asEthAccount with
  | none => (s, false)
  | some ethAccount =>
    let n := GetNonceM s.2 (d.EthAddress ethAccount)
    let evmNonce := n.1
    if evmNonce ≠ ethAccount.base.Sequence then
      ((⟨s.1.msg ++ nonceMismatchMsg (d.AddressString account.GetAddress)
          ethAccount.base.Sequence evmNonce, s.1.count + 1⟩, n.2), false)
    else
      ((s.1, n.2), false)

/-- The invariant returned by `k.BalanceInvariant()` run on a world: the returned pair and
the world it leaves. The traversal is over the accounts stored when it starts. -/
def BalanceInvariantM (d : Deps) (w : World) : (String × Bool) × World :=
  let r := IterateAccounts w.ctx.accounts (balanceCallbackM d) (Acc.init, w)
  let broken := r.1.count != 0
  ((d.FormatInvariant d.ModuleName balanceInvariant (balanceBody r.1), broken), r.2)

/-- The invariant returned by `k.NonceInvariant()` run on a world: the returned pair and
the world it leaves. -/
def NonceInvariantM (d : Deps) (w : World) : (String × Bool) × World :=
  let r := IterateAccounts w.ctx.accounts (nonceCallbackM d) (Acc.init, w)
  let broken := r.1.count != 0
  ((d.FormatInvariant d.ModuleName nonceInvariant (nonceBody r.1), broken), r.2)

/-! ## Registration -/

/-- An `sdk.Invariant`: a function from the context to a report and a broken flag. -/
abbrev Invariant := Context → String × Bool

/-- One call of `RegisterRoute`: module name, route and invariant. -/
structure Route where
  moduleName : String
  route : String
  invar : Invariant

/-- An `sdk.InvariantRegistry`, seen as the routes registered so far, oldest first. -/
abbrev InvariantRegistry := List Route

/-- The method `ir.RegisterRoute(moduleName, route, invar)`. -/
def RegisterRoute (ir : InvariantRegistry) (moduleName route : String) (invar : Invariant) :
    InvariantRegistry :=
  ir ++ [⟨moduleName, route, invar⟩]

/-- The function `RegisterInvariants(ir, k)`. -/
def RegisterInvariants (d : Deps) (ir : InvariantRegistry) : InvariantRegistry :=
  let ir₁ := RegisterRoute ir d.ModuleName balanceInvariant (BalanceInvariant d)
  RegisterRoute ir₁ d.ModuleName nonceInvariant (NonceInvariant d)

/-! ## Reference notions used to state the properties -/

/-- Concatenation of a list of strings, in list order. -/
def concat : List String → String
  | [] => ""
  | x :: xs => x ++ concat xs

/-- The EVM-capable accounts of a list, in list order. -/
def ethAccounts (l : List Account) : List EthAccount :=
  l.filterMap Account.asEthAccount

/-- The ledger amount of an EthAccount in the configured denomination. -/
def ledgerAmount (d : Deps) (ctx : Context) (a : EthAccount) : Int :=
  d.AmountOf a.base.Coins (GetParams ctx).EvmDenom

/-- The execution-view balance at the derived address of an EthAccount. -/
def evmBalanceOf (d : Deps) (ctx : Context) (a : EthAccount) : Int :=
  GetBalance ctx (d.EthAddress a)

/-- The execution-view nonce at the derived address of an EthAccount. -/
def evmNonceOf (d : Deps) (ctx : Context) (a : EthAccount) : Nat :=
  GetNonce ctx (d.EthAddress a)

/-- The ledger amount and the execution-view balance differ as integers. -/
def balanceDiffers (d : Deps) (ctx : Context) (a : EthAccount) : Bool :=
  decide (ledgerAmount d ctx a ≠ evmBalanceOf d ctx a)

/-- The ledger sequence number and the execution-view nonce differ. -/
def nonceDiffers (d : Deps) (ctx : Context) (a : EthAccount) : Bool :=
  decide (a.base.Sequence ≠ evmNonceOf d ctx a)

/-- The report line of a balance mismatch, without the leading tab and the final line feed. -/
def balanceLine (d : Deps) (ctx : Context) (a : EthAccount) : String :=
  "balance mismatch for address " ++ d.AddressString a.base.Address
    ++ ": account balance " ++ toString (ledgerAmount d ctx a)
    ++ ", evm balance " ++ toString (evmBalanceOf d ctx a)

/-- The record of a nonce mismatch as the code writes it. -/
def nonceRecord (d : Deps) (ctx : Context) (a : EthAccount) : String :=
  "\nonce mismatch for address " ++ d.AddressString a.base.Address
    ++ ": account nonce " ++ toString a.base.Sequence
    ++ ", evm nonce " ++ toString (evmNonceOf d ctx a) ++ "\n"

/-- The callback `cb` instrumented with a log of the accounts it has been called on. -/
def traced {σ : Type} (cb : Account → σ → σ × Bool) (account : Account)
    (s : σ × List Account) : (σ × List Account) × Bool :=
  let r := cb account s.1
  ((r.1, s.2 ++ [account]), r.2)

/-- The report body in the format the specification gives: the count, the words
" mismatches found", a line feed, and then each line between a tab and a line feed. -/
def specReportBody (count : Nat) (lines : List String) : String :=
  toString count ++ " mismatches found\n" ++ concat (lines.map (fun l => "\t" ++ l ++ "\n"))

/-- The accessor calls BalanceInvariant makes for a list of EthAccounts, in order: for each
account the parameters and then the balance at the derived address. -/
def balanceCalls (d : Deps) : List EthAccount → List Call
  | [] => []
  | a :: l => Call.GetParams :: Call.GetBalance (d.EthAddress a) :: balanceCalls d l

/-- The accessor calls NonceInvariant makes for a list of EthAccounts, in order: for each
account the nonce at the derived address. -/
def nonceCalls (d : Deps) : List EthAccount → List Call
  | [] => []
  | a :: l => Call.GetNonce (d.EthAddress a) :: nonceCalls d l

/-- Two EthAccounts, each read in its own context, agree on what the balance check reads:
the address, the derived address, the ledger amount in the configured denomination and
the execution-view balance at the derived address. -/
def balanceAgree (d : Deps) (ctx₁ ctx₂ : Context) (a₁ a₂ : EthAccount) : Prop :=
  a₁.base.Address = a₂.base.Address ∧ d.EthAddress a₁ = d.EthAddress a₂ ∧
  d.AmountOf a₁.base.Coins (GetParams ctx₁).EvmDenom =
    d.AmountOf a₂.base.Coins (GetParams ctx₂).EvmDenom ∧
  GetBalance ctx₁ (d.EthAddress a₁) = GetBalance ctx₂ (d.EthAddress a₂)

/-- Two EthAccounts, each read in its own context, agree on what the nonce check reads:
the address, the sequence number and the execution-view nonce at the derived address. -/
def nonceAgree (d : Deps) (ctx₁ ctx₂ : Context) (a₁ a₂ : EthAccount) : Prop :=
  a₁.base.Address = a₂.base.Address ∧ a₁.base.Sequence = a₂.base.Sequence ∧
  GetNonce ctx₁ (d.EthAddress a₁) = GetNonce ctx₂ (d.EthAddress a₂)

/-! ## Concrete collaborators and contexts -/

/-- A concrete set of collaborators: the amount of the first coin of the denomination
(zero when there is none), addresses rendered byte by byte as characters, the base
address as derived address, and the report layout "module: name invariant". -/
def sampleDeps : Deps where
  AmountOf := fun coins denom =>
    match coins.find? (fun c => c.Denom = denom) with
    | some c => c.Amount
    | none => 0
  AddressString := fun bytes => String.mk (bytes.map Char.ofNat)
  EthAddress := fun a => a.base.Address
  FormatInvariant := fun m n msg => m ++ ": " ++ n ++ " invariant\n" ++ msg ++ "\n"
  ModuleName := "evm"

/-- Account A of the scenario: EVM-capable, ledger amount 100, sequence 3. -/
def accountA : Account := .eth ⟨⟨[65], [⟨"aphoton", 100⟩], 3⟩, []⟩

/-- Account B of the scenario: EVM-capable, ledger amount 50, sequence 7. -/
def accountB : Account := .eth ⟨⟨[66], [⟨"aphoton", 50⟩], 7⟩, []⟩

/-- Account C of the scenario: not EVM-capable. -/
def accountC : Account := .other ⟨[67], [⟨"aphoton", 9⟩], 1⟩

/-- The scenario: A has 100 against 100, B has 50 against 40, C is not EVM-capable;
sequences and nonces agree. -/
def scenarioCtx : Context where
  accounts := [accountA, accountB, accountC]
  params := ⟨"aphoton"⟩
  balances := fun addr => if addr = [65] then 100 else if addr = [66] then 40 else 0
  nonces := fun addr => if addr = [65] then 3 else if addr = [66] then 7 else 0

/-- A context whose two views agree on every EVM-capable account. -/
def consistentCtx : Context where
  accounts := [accountA, accountC, accountB]
  params := ⟨"aphoton"⟩
  balances := fun addr => if addr = [65] then 100 else if addr = [66] then 50 else 0
  nonces := fun addr => if addr = [65] then 3 else if addr = [66] then 7 else 0

/-- An EthAccount that holds nothing in the configured denomination. -/
def emptyEthAccount : EthAccount := ⟨⟨[68], [⟨"stake", 12⟩], 0⟩, []⟩

/-- An EthAccount whose ledger amount in the configured denomination is 5. -/
def fiveEthAccount : EthAccount := ⟨⟨[69], [⟨"aphoton", 5⟩], 1⟩, []⟩

/-- A context with one EthAccount of sequence 1 whose execution-view nonce reads 0. -/
def nonceGapCtx : Context where
  accounts := [.eth fiveEthAccount]
  params := ⟨"aphoton"⟩
  balances := fun _ => 5
  nonces := fun _ => 0

/-- A context whose EVM state has no entry: every balance and every nonce reads zero. -/
def freshEvmCtx : Context where
  accounts := [.eth emptyEthAccount, .eth fiveEthAccount]
  params := ⟨"aphoton"⟩
  balances := fun _ => 0
  nonces := fun _ => 0

/-- The scenario with everything the balance check does not read changed: coins of other
denominations, sequence numbers, nonces, code hashes and the accounts that are not
EVM-capable. -/
def balanceTwinCtx : Context where
  accounts := [.other ⟨[70], [⟨"aphoton", 1⟩], 0⟩,
    .eth ⟨⟨[65], [⟨"stake", 77⟩, ⟨"aphoton", 100⟩], 90⟩, [1]⟩,
    .eth ⟨⟨[66], [⟨"aphoton", 50⟩, ⟨"stake", 3⟩], 0⟩, [2]⟩]
  params := ⟨"aphoton"⟩
  balances := fun addr => if addr = [65] then 100 else if addr = [66] then 40 else 8
  nonces := fun _ => 11

/-- The context `nonceGapCtx` with everything the nonce check does not read changed: all
coins, the configured denomination, the execution-view balances, the code hash and the
accounts that are not EVM-capable. -/
def nonceTwinCtx : Context where
  accounts := [.other ⟨[70], [], 5⟩, .eth ⟨⟨[69], [⟨"stake", 1⟩], 1⟩, [1]⟩]
  params := ⟨"stake"⟩
  balances := fun _ => 13
  nonces := fun _ => 0

/-- A context whose only account is not EVM-capable. -/
def noEthCtx : Context where
  accounts := [accountC]
  params := ⟨"aphoton"⟩
  balances := fun _ => 0
  nonces := fun _ => 0

/-! ## Auxiliary lemmas -/

theorem concat_append (xs ys : List String) : concat (xs ++ ys) = concat xs ++ concat ys := by
  induction xs with
  | nil => simp [concat]
  | cons x xs ih => simp [concat, ih, String.append_assoc]

theorem Cmp_ne_zero_iff (x y : Int) : Cmp x y ≠ 0 ↔ x ≠ y := by
  unfold Cmp
  constructor
  · intro h hxy
    subst hxy
    simp at h
  · intro h
    by_cases hlt : x < y
    · simp [hlt]
    · simp [hlt, h]

theorem balanceMismatchMsg_eq (d : Deps) (ctx : Context) (a : EthAccount) :
    balanceMismatchMsg (d.AddressString a.base.Address) (toString (ledgerAmount d ctx a))
      (toString (evmBalanceOf d ctx a)) = "\t" ++ balanceLine d ctx a ++ "\n" := by
  have h : "\tbalance mismatch for address " = "\t" ++ "balance mismatch for address " := by
    decide
  rw [balanceMismatchMsg, balanceLine, h]
  simp only [String.append_assoc]


theorem balanceCallback_snd (d : Deps) (ctx : Context) (account : Account) (s : Acc) :
    (balanceCallback d ctx account s).2 = false := by
  unfold balanceCallback
  cases account.asEthAccount with
  | none => rfl
  | some a =>
    dsimp only
    split <;> rfl

theorem nonceCallback_snd (d : Deps) (ctx : Context) (account : Account) (s : Acc) :
    (nonceCallback d ctx account s).2 = false := by
  unfold nonceCallback
  cases account.asEthAccount with
  | none => rfl
  | some a =>
    dsimp only
    split <;> rfl

theorem balanceCallback_other (d : Deps) (ctx : Context) (b : BaseAccount) (s : Acc) :
    balanceCallback d ctx (.other b) s = (s, false) := rfl

theorem nonceCallback_other (d : Deps) (ctx : Context) (b : BaseAccount) (s : Acc) :
    nonceCallback d ctx (.other b) s = (s, false) := rfl

theorem balanceCallback_eth (d : Deps) (ctx : Context) (a : EthAccount) (s : Acc) :
    balanceCallback d ctx (.eth a) s =
      if balanceDiffers d ctx a = true then
        (⟨s.msg ++ ("\t" ++ balanceLine d ctx a ++ "\n"), s.count + 1⟩, false)
      else (s, false) := by
  have hc : Cmp (GetBalance ctx (d.EthAddress a))
      (d.AmountOf a.base.Coins (GetParams ctx).EvmDenom) ≠ 0 ↔ balanceDiffers d ctx a = true := by
    rw [Cmp_ne_zero_iff]
    simp only [balanceDiffers, ledgerAmount, evmBalanceOf, decide_eq_true_eq]
    exact ne_comm
  simp only [balanceCallback, Account.asEthAccount, Account.GetAddress]
  by_cases h : balanceDiffers d ctx a = true
  · rw [if_pos (hc.mpr h), if_pos h, ← balanceMismatchMsg_eq]
    rfl
  · rw [if_neg (fun h2 => h (hc.mp h2)), if_neg h]

theorem nonceCallback_eth (d : Deps) (ctx : Context) (a : EthAccount) (s : Acc) :
    nonceCallback d ctx (.eth a) s =
      if nonceDiffers d ctx a = true then
        (⟨s.msg ++ nonceRecord d ctx a, s.count + 1⟩, false)
      else (s, false) := by
  have hc : GetNonce ctx (d.EthAddress a) ≠ a.base.Sequence ↔ nonceDiffers d ctx a = true := by
    simp only [nonceDiffers, evmNonceOf, decide_eq_true_eq]
    exact ne_comm
  simp only [nonceCallback, Account.asEthAccount, Account.GetAddress]
  by_cases h : nonceDiffers d ctx a = true
  · rw [if_pos (hc.mpr h), if_pos h]
    rfl
  · rw [if_neg (fun h2 => h (hc.mp h2)), if_neg h]


theorem IterateAccounts_eq_foldl {σ : Type} (cb : Account → σ → σ × Bool)
    (h : ∀ a s, (cb a s).2 = false) (l : List Account) (s : σ) :
    IterateAccounts l cb s = l.foldl (fun s a => (cb a s).1) s := by
  induction l generalizing s with
  | nil => rfl
  | cons a l ih => simp [IterateAccounts, h, ih]

theorem ethAccounts_cons_eth (a : EthAccount) (l : List Account) :
    ethAccounts (.eth a :: l) = a :: ethAccounts l := rfl

theorem ethAccounts_cons_other (b : BaseAccount) (l : List Account) :
    ethAccounts (.other b :: l) = ethAccounts l := rfl

theorem ethAccounts_append (l₁ l₂ : List Account) :
    ethAccounts (l₁ ++ l₂) = ethAccounts l₁ ++ ethAccounts l₂ := by
  simp [ethAccounts, List.filterMap_append]

theorem balance_iterate (d : Deps) (ctx : Context) (l : List Account) (s : Acc) :
    IterateAccounts l (balanceCallback d ctx) s =
      ⟨s.msg ++ concat (((ethAccounts l).filter (balanceDiffers d ctx)).map
          (fun a => "\t" ++ balanceLine d ctx a ++ "\n")),
        s.count + (ethAccounts l).countP (balanceDiffers d ctx)⟩ := by
  induction l generalizing s with
  | nil => simp [IterateAccounts, ethAccounts, concat]
  | cons x l ih =>
    cases x with
    | other b =>
      rw [IterateAccounts, balanceCallback_other, ethAccounts_cons_other]
      simpa using ih s
    | eth a =>
      rw [IterateAccounts, balanceCallback_eth, ethAccounts_cons_eth]
      by_cases h : balanceDiffers d ctx a = true
      · simp only [h, if_true, ih, List.filter_cons_of_pos, List.map_cons, concat,
          String.append_assoc, List.countP_cons_of_pos, Bool.false_eq_true, if_false,
          Acc.mk.injEq, true_and]
        omega
      · simp [h, ih]

theorem nonce_iterate (d : Deps) (ctx : Context) (l : List Account) (s : Acc) :
    IterateAccounts l (nonceCallback d ctx) s =
      ⟨s.msg ++ concat (((ethAccounts l).filter (nonceDiffers d ctx)).map (nonceRecord d ctx)),
        s.count + (ethAccounts l).countP (nonceDiffers d ctx)⟩ := by
  induction l generalizing s with
  | nil => simp [IterateAccounts, ethAccounts, concat]
  | cons x l ih =>
    cases x with
    | other b =>
      rw [IterateAccounts, nonceCallback_other, ethAccounts_cons_other]
      simpa using ih s
    | eth a =>
      rw [IterateAccounts, nonceCallback_eth, ethAccounts_cons_eth]
      by_cases h : nonceDiffers d ctx a = true
      · simp only [h, if_true, ih, List.filter_cons_of_pos, List.map_cons, concat,
          String.append_assoc, List.countP_cons_of_pos, Bool.false_eq_true, if_false,
          Acc.mk.injEq, true_and]
        omega
      · simp [h, ih]

theorem balanceAcc_eq (d : Deps) (ctx : Context) :
    balanceAcc d ctx =
      ⟨concat (((ethAccounts ctx.accounts).filter (balanceDiffers d ctx)).map
          (fun a => "\t" ++ balanceLine d ctx a ++ "\n")),
        (ethAccounts ctx.accounts).countP (balanceDiffers d ctx)⟩ := by
  rw [balanceAcc, balance_iterate]
  simp [Acc.init]

theorem nonceAcc_eq (d : Deps) (ctx : Context) :
    nonceAcc d ctx =
      ⟨concat (((ethAccounts ctx.accounts).filter (nonceDiffers d ctx)).map (nonceRecord d ctx)),
        (ethAccounts ctx.accounts).countP (nonceDiffers d ctx)⟩ := by
  rw [nonceAcc, nonce_iterate]
  simp [Acc.init]


theorem IterateAccounts_traced {σ : Type} (cb : Account → σ → σ × Bool)
    (h : ∀ a s, (cb a s).2 = false) (l : List Account) (s : σ) (seen : List Account) :
    IterateAccounts l (traced cb) (s, seen) = (IterateAccounts l cb s, seen ++ l) := by
  induction l generalizing s seen with
  | nil => simp [IterateAccounts]
  | cons a l ih =>
    rw [IterateAccounts, IterateAccounts]
    simp [traced, h, ih]

theorem ethAccounts_filter (l : List Account) :
    ethAccounts (l.filter (fun a => a.asEthAccount.isSome)) = ethAccounts l := by
  have he : ∀ a, (Account.eth a).asEthAccount.isSome = true := fun _ => rfl
  have ho : ∀ b, (Account.other b).asEthAccount.isSome = false := fun _ => rfl
  induction l with
  | nil => rfl
  | cons x l ih =>
    cases x with
    | eth a => simp only [List.filter_cons, he, if_true, ethAccounts_cons_eth, ih]
    | other b =>
      simp only [List.filter_cons, ho, Bool.false_eq_true, if_false, ethAccounts_cons_other, ih]

theorem balanceAcc_congr (d : Deps) (l l' : List Account) (p : Params) (b : Address → Int)
    (n n' : Address → Nat) (h : ethAccounts l = ethAccounts l') :
    balanceAcc d ⟨l, p, b, n⟩ = balanceAcc d ⟨l', p, b, n'⟩ := by
  rw [balanceAcc, balanceAcc, balance_iterate, balance_iterate]
  simp only [h]
  rfl

theorem nonceAcc_congr (d : Deps) (l l' : List Account) (p p' : Params) (b b' : Address → Int)
    (n : Address → Nat) (h : ethAccounts l = ethAccounts l') :
    nonceAcc d ⟨l, p, b, n⟩ = nonceAcc d ⟨l', p', b', n⟩ := by
  rw [nonceAcc, nonceAcc, nonce_iterate, nonce_iterate]
  simp only [h]
  rfl

theorem countP_eq_zero_of_forall {α : Type} (q : α → Bool) (l : List α)
    (h : ∀ a ∈ l, q a = false) : l.countP q = 0 ∧ l.filter q = [] := by
  constructor
  · rw [List.countP_eq_zero]
    intro a ha
    simp [h a ha]
  · rw [List.filter_eq_nil_iff]
    intro a ha
    simp [h a ha]

/-! ## The claims -/

/-- Claim C1: the count that BalanceInvariant accumulates is the number of EthAccounts of the
traversed list whose ledger amount in the configured denomination differs from the
execution-view balance at the derived address, the returned broken flag is true
exactly when that number is positive, and the returned report is FormatInvariant
applied to the module name, "balance" and the body that gives that number in decimal
after "account balances mismatches found ", followed by a line feed and the
accumulated message. -/
theorem BalanceInvariant_count (d : Deps) (ctx : Context) :
    (balanceAcc d ctx).count = (ethAccounts ctx.accounts).countP (balanceDiffers d ctx) ∧
    ((BalanceInvariant d ctx).2 = true ↔
      0 < (ethAccounts ctx.accounts).countP (balanceDiffers d ctx)) ∧
    (BalanceInvariant d ctx).1 =
      d.FormatInvariant d.ModuleName "balance"
        ("account balances mismatches found "
          ++ toString ((ethAccounts ctx.accounts).countP (balanceDiffers d ctx)) ++ "\n"
          ++ (balanceAcc d ctx).msg) := by
  have h := balanceAcc_eq d ctx
  refine ⟨by rw [h], ?_, ?_⟩
  · simp only [BalanceInvariant, h]
    simp [Nat.pos_iff_ne_zero]
  · simp only [BalanceInvariant, balanceBody, balanceInvariant, h]

/-- Claim C2: the message that BalanceInvariant accumulates is, in traversal order, one line
per mismatching EthAccount, each line being the text "balance mismatch for address",
the address of that account, "account balance", its ledger amount, "evm balance" and
its execution-view amount, both in decimal, set between a tab and a line feed; there
are as many lines as the count. In the scenario of accounts A, B and C the only line
is the one of B with 50 and 40. -/
theorem BalanceInvariant_msg_lines (d : Deps) (ctx : Context) :
    (balanceAcc d ctx).msg =
      concat ((((ethAccounts ctx.accounts).filter (balanceDiffers d ctx)).map
        (balanceLine d ctx)).map (fun line => "\t" ++ line ++ "\n")) ∧
    (((ethAccounts ctx.accounts).filter (balanceDiffers d ctx)).map
        (balanceLine d ctx)).length = (ethAccounts ctx.accounts).countP (balanceDiffers d ctx) ∧
    ((ethAccounts scenarioCtx.accounts).filter (balanceDiffers sampleDeps scenarioCtx)).map
        (balanceLine sampleDeps scenarioCtx) =
      ["balance mismatch for address B: account balance 50, evm balance 40"] := by
  refine ⟨?_, ?_, by decide⟩
  · rw [balanceAcc_eq, List.map_map]
    rfl
  · rw [List.length_map, List.countP_eq_length_filter]

/-- Claim C3 (soundness): when every EthAccount of the traversed list has a ledger amount in
the configured denomination equal to its execution-view balance and a sequence number
equal to its execution-view nonce, both checks end with an empty message and count 0
and return broken = false, the report being built from the body with count 0. -/
theorem invariants_sound (d : Deps) (ctx : Context)
    (hbal : ∀ a ∈ ethAccounts ctx.accounts,
      d.AmountOf a.base.Coins (GetParams ctx).EvmDenom = GetBalance ctx (d.EthAddress a))
    (hnonce : ∀ a ∈ ethAccounts ctx.accounts,
      a.base.Sequence = GetNonce ctx (d.EthAddress a)) :
    balanceAcc d ctx = ⟨"", 0⟩ ∧
    BalanceInvariant d ctx =
      (d.FormatInvariant d.ModuleName "balance" "account balances mismatches found 0\n", false) ∧
    nonceAcc d ctx = ⟨"", 0⟩ ∧
    NonceInvariant d ctx =
      (d.FormatInvariant d.ModuleName "nonce" "account nonces mismatches found 0\n", false) := by
  have hb : ∀ a ∈ ethAccounts ctx.accounts, balanceDiffers d ctx a = false := by
    intro a ha
    simp [balanceDiffers, ledgerAmount, evmBalanceOf, hbal a ha]
  have hn : ∀ a ∈ ethAccounts ctx.accounts, nonceDiffers d ctx a = false := by
    intro a ha
    simp [nonceDiffers, evmNonceOf, ← hnonce a ha]
  have hB : balanceAcc d ctx = ⟨"", 0⟩ := by
    rw [balanceAcc_eq, (countP_eq_zero_of_forall _ _ hb).1, (countP_eq_zero_of_forall _ _ hb).2]
    rfl
  have hN : nonceAcc d ctx = ⟨"", 0⟩ := by
    rw [nonceAcc_eq, (countP_eq_zero_of_forall _ _ hn).1, (countP_eq_zero_of_forall _ _ hn).2]
    rfl
  refine ⟨hB, ?_, hN, ?_⟩
  · simp only [BalanceInvariant, hB]
    rfl
  · simp only [NonceInvariant, hN]
    rfl

/-- Witness of C3 on a context whose two views agree. -/
theorem invariants_sound_witness :
    balanceAcc sampleDeps consistentCtx = ⟨"", 0⟩ ∧
    BalanceInvariant sampleDeps consistentCtx =
      (sampleDeps.FormatInvariant sampleDeps.ModuleName "balance"
        "account balances mismatches found 0\n", false) ∧
    nonceAcc sampleDeps consistentCtx = ⟨"", 0⟩ ∧
    NonceInvariant sampleDeps consistentCtx =
      (sampleDeps.FormatInvariant sampleDeps.ModuleName "nonce"
        "account nonces mismatches found 0\n", false) :=
  invariants_sound sampleDeps consistentCtx (by decide) (by decide)

/-- Claim C4: the count that NonceInvariant accumulates is the number of EthAccounts of the
traversed list whose sequence number differs from the execution-view nonce at the
derived address, broken is true exactly when that number is not zero, and the message
is made of one record per such account, in traversal order, each holding the address
of the account, its sequence number and the execution-view nonce in decimal. The
returned report is FormatInvariant applied to the module name, "nonce" and the body
that gives that number in decimal after "account nonces mismatches found ", followed
by a line feed and those records. -/
theorem NonceInvariant_count_records (d : Deps) (ctx : Context) :
    (nonceAcc d ctx).count = (ethAccounts ctx.accounts).countP (nonceDiffers d ctx) ∧
    ((NonceInvariant d ctx).2 = true ↔
      (ethAccounts ctx.accounts).countP (nonceDiffers d ctx) ≠ 0) ∧
    (nonceAcc d ctx).msg =
      concat (((ethAccounts ctx.accounts).filter (nonceDiffers d ctx)).map (fun a =>
        "\nonce mismatch for address " ++ d.AddressString a.base.Address
          ++ ": account nonce " ++ toString a.base.Sequence
          ++ ", evm nonce " ++ toString (GetNonce ctx (d.EthAddress a)) ++ "\n")) ∧
    ((ethAccounts ctx.accounts).filter (nonceDiffers d ctx)).length =
      (ethAccounts ctx.accounts).countP (nonceDiffers d ctx) ∧
    (NonceInvariant d ctx).1 =
      d.FormatInvariant d.ModuleName "nonce"
        ("account nonces mismatches found "
          ++ toString ((ethAccounts ctx.accounts).countP (nonceDiffers d ctx)) ++ "\n"
          ++ concat (((ethAccounts ctx.accounts).filter (nonceDiffers d ctx)).map (fun a =>
              "\nonce mismatch for address " ++ d.AddressString a.base.Address
                ++ ": account nonce " ++ toString a.base.Sequence
                ++ ", evm nonce " ++ toString (GetNonce ctx (d.EthAddress a)) ++ "\n"))) := by
  have h := nonceAcc_eq d ctx
  refine ⟨by rw [h], ?_, ?_, ?_, ?_⟩
  · simp only [NonceInvariant, h]
    simp
  · rw [h]
    rfl
  · rw [List.countP_eq_length_filter]
  · simp only [NonceInvariant, nonceBody, nonceInvariant, h]
    rfl


/-- Claim C5 (filter correctness): for both checks the returned pair of report and broken flag
is the one obtained on the same list with every account that is not an EthAccount
removed, and so are the accumulated message and count, whatever the address, coins and
sequence of the removed accounts. -/
theorem invariants_skip_other_accounts (d : Deps) (l : List Account) (p : Params)
    (b : Address → Int) (n : Address → Nat) :
    BalanceInvariant d ⟨l, p, b, n⟩ =
      BalanceInvariant d ⟨l.filter (fun a => a.asEthAccount.isSome), p, b, n⟩ ∧
    NonceInvariant d ⟨l, p, b, n⟩ =
      NonceInvariant d ⟨l.filter (fun a => a.asEthAccount.isSome), p, b, n⟩ ∧
    balanceAcc d ⟨l, p, b, n⟩ =
      balanceAcc d ⟨l.filter (fun a => a.asEthAccount.isSome), p, b, n⟩ ∧
    nonceAcc d ⟨l, p, b, n⟩ =
      nonceAcc d ⟨l.filter (fun a => a.asEthAccount.isSome), p, b, n⟩ := by
  have hB := balanceAcc_congr d l (l.filter (fun a => a.asEthAccount.isSome)) p b n n
    (ethAccounts_filter l).symm
  have hN := nonceAcc_congr d l (l.filter (fun a => a.asEthAccount.isSome)) p p b b n
    (ethAccounts_filter l).symm
  refine ⟨?_, ?_, hB, hN⟩
  · simp only [BalanceInvariant]
    rw [hB]
  · simp only [NonceInvariant]
    rw [hN]

/-- Claim C6 (missing entry read as zero): when the execution-view balance at the derived
address of an EthAccount reads zero, the callback of BalanceInvariant leaves message
and count untouched if the ledger amount in the configured denomination is 0, and for
a ledger amount of 5, or any other amount that is not zero, it adds one to the count
and appends one line giving that amount as account balance and 0 as evm balance. -/
theorem balance_missing_entry_is_zero (d : Deps) (ctx : Context) (a : EthAccount) (s : Acc)
    (hzero : GetBalance ctx (d.EthAddress a) = 0) :
    (d.AmountOf a.base.Coins (GetParams ctx).EvmDenom = 0 →
      balanceCallback d ctx (.eth a) s = (s, false)) ∧
    (d.AmountOf a.base.Coins (GetParams ctx).EvmDenom = 5 →
      balanceCallback d ctx (.eth a) s =
        (⟨s.msg ++ ("\tbalance mismatch for address " ++ d.AddressString a.base.Address
            ++ ": account balance 5, evm balance 0\n"), s.count + 1⟩, false)) ∧
    (d.AmountOf a.base.Coins (GetParams ctx).EvmDenom ≠ 0 →
      balanceCallback d ctx (.eth a) s =
        (⟨s.msg ++ ("\tbalance mismatch for address " ++ d.AddressString a.base.Address
            ++ ": account balance " ++ toString (d.AmountOf a.base.Coins (GetParams ctx).EvmDenom)
            ++ ", evm balance 0\n"), s.count + 1⟩, false)) := by
  have hne : ∀ (x : Int), x ≠ 0 →
      d.AmountOf a.base.Coins (GetParams ctx).EvmDenom = x →
      balanceCallback d ctx (.eth a) s =
        (⟨s.msg ++ ("\tbalance mismatch for address " ++ d.AddressString a.base.Address
            ++ ": account balance " ++ toString x ++ ", evm balance 0\n"), s.count + 1⟩, false) := by
    intro x hx hamt
    have hc : Cmp 0 x ≠ 0 := (Cmp_ne_zero_iff 0 x).mpr (Ne.symm hx)
    have h0 : toString (0 : Int) = "0" := by decide
    simp only [balanceCallback, Account.asEthAccount, Account.GetAddress, hzero, hamt,
      if_pos hc, balanceMismatchMsg, h0, String.append_assoc]
    rfl
  refine ⟨?_, ?_, ?_⟩
  · intro hamt
    have hc : ¬ Cmp 0 0 ≠ 0 := by decide
    simp only [balanceCallback, Account.asEthAccount, hzero, hamt, if_neg hc]
  · intro hamt
    have h5 : toString (5 : Int) = "5" := by decide
    rw [hne 5 (by decide) hamt, h5]
    simp only [String.append_assoc]
    rfl
  · intro hamt
    rw [hne _ hamt rfl]

/-- Witness of C6 on an EVM state without entries: an EthAccount holding nothing in the
configured denomination and one holding 5. -/
theorem balance_missing_entry_is_zero_witness :
    balanceCallback sampleDeps freshEvmCtx (.eth emptyEthAccount) Acc.init = (Acc.init, false) ∧
    balanceCallback sampleDeps freshEvmCtx (.eth fiveEthAccount) Acc.init =
      (⟨Acc.init.msg ++ ("\tbalance mismatch for address "
          ++ sampleDeps.AddressString fiveEthAccount.base.Address
          ++ ": account balance 5, evm balance 0\n"), Acc.init.count + 1⟩, false) ∧
    balanceCallback sampleDeps freshEvmCtx (.eth fiveEthAccount) Acc.init =
      (⟨Acc.init.msg ++ ("\tbalance mismatch for address "
          ++ sampleDeps.AddressString fiveEthAccount.base.Address ++ ": account balance "
          ++ toString (sampleDeps.AmountOf fiveEthAccount.base.Coins
              (GetParams freshEvmCtx).EvmDenom)
          ++ ", evm balance 0\n"), Acc.init.count + 1⟩, false) :=
  ⟨(balance_missing_entry_is_zero sampleDeps freshEvmCtx emptyEthAccount Acc.init
      (by decide)).1 (by decide),
    (balance_missing_entry_is_zero sampleDeps freshEvmCtx fiveEthAccount Acc.init
      (by decide)).2.1 (by decide),
    (balance_missing_entry_is_zero sampleDeps freshEvmCtx fiveEthAccount Acc.init
      (by decide)).2.2 (by decide)⟩

/-- Claim C7 (order preservation): for both checks the message of a list l1 ++ l2 is the
message of l1 followed by the message of l2, and its count is the sum of the two
counts; so when an account x is traversed before an account y, the fragment of x, if
any, stands before the fragment of y in the message. -/
theorem invariants_append (d : Deps) (p : Params) (b : Address → Int) (n : Address → Nat)
    (l₁ l₂ : List Account) :
    (balanceAcc d ⟨l₁ ++ l₂, p, b, n⟩).msg =
      (balanceAcc d ⟨l₁, p, b, n⟩).msg ++ (balanceAcc d ⟨l₂, p, b, n⟩).msg ∧
    (balanceAcc d ⟨l₁ ++ l₂, p, b, n⟩).count =
      (balanceAcc d ⟨l₁, p, b, n⟩).count + (balanceAcc d ⟨l₂, p, b, n⟩).count ∧
    (nonceAcc d ⟨l₁ ++ l₂, p, b, n⟩).msg =
      (nonceAcc d ⟨l₁, p, b, n⟩).msg ++ (nonceAcc d ⟨l₂, p, b, n⟩).msg ∧
    (nonceAcc d ⟨l₁ ++ l₂, p, b, n⟩).count =
      (nonceAcc d ⟨l₁, p, b, n⟩).count + (nonceAcc d ⟨l₂, p, b, n⟩).count ∧
    (∀ (x y : Account) (l₃ : List Account),
      (balanceAcc d ⟨l₁ ++ [x] ++ l₂ ++ [y] ++ l₃, p, b, n⟩).msg =
        (balanceAcc d ⟨l₁, p, b, n⟩).msg ++ (balanceAcc d ⟨[x], p, b, n⟩).msg
          ++ (balanceAcc d ⟨l₂, p, b, n⟩).msg ++ (balanceAcc d ⟨[y], p, b, n⟩).msg
          ++ (balanceAcc d ⟨l₃, p, b, n⟩).msg) ∧
    (∀ (x y : Account) (l₃ : List Account),
      (nonceAcc d ⟨l₁ ++ [x] ++ l₂ ++ [y] ++ l₃, p, b, n⟩).msg =
        (nonceAcc d ⟨l₁, p, b, n⟩).msg ++ (nonceAcc d ⟨[x], p, b, n⟩).msg
          ++ (nonceAcc d ⟨l₂, p, b, n⟩).msg ++ (nonceAcc d ⟨[y], p, b, n⟩).msg
          ++ (nonceAcc d ⟨l₃, p, b, n⟩).msg) := by
  simp only [balanceAcc_eq, nonceAcc_eq, ethAccounts_append, List.filter_append,
    List.map_append, concat_append, List.countP_append]
  exact ⟨rfl, rfl, rfl, rfl, fun _ _ _ => rfl, fun _ _ _ => rfl⟩


/-- Claim C8, as the specification words it, fails in the scenario of accounts A, B and C:
the body that BalanceInvariant builds is not the count followed by " mismatches found"
and the lines. -/
theorem BalanceInvariant_body_not_spec_format :
    balanceBody (balanceAcc sampleDeps scenarioCtx) ≠
      specReportBody ((ethAccounts scenarioCtx.accounts).countP
          (balanceDiffers sampleDeps scenarioCtx))
        (((ethAccounts scenarioCtx.accounts).filter (balanceDiffers sampleDeps scenarioCtx)).map
          (balanceLine sampleDeps scenarioCtx)) := by
  decide

/-- Claim C8, amended: the body that BalanceInvariant builds is the text
"account balances mismatches found ", the count in decimal, a line feed, and then for
each mismatch in traversal order a tab, the mismatch line and a line feed; the
returned report is FormatInvariant applied to the module name, "balance" and that
body. -/
theorem BalanceInvariant_body_format (d : Deps) (ctx : Context) :
    balanceBody (balanceAcc d ctx) =
      "account balances mismatches found "
        ++ toString ((ethAccounts ctx.accounts).countP (balanceDiffers d ctx)) ++ "\n"
        ++ concat ((((ethAccounts ctx.accounts).filter (balanceDiffers d ctx)).map
            (balanceLine d ctx)).map (fun line => "\t" ++ line ++ "\n")) ∧
    (BalanceInvariant d ctx).1 =
      d.FormatInvariant d.ModuleName "balance" (balanceBody (balanceAcc d ctx)) := by
  refine ⟨?_, rfl⟩
  rw [balanceAcc_eq, List.map_map]
  rfl

/-- Claim C9 fails on the code: with one EthAccount of sequence 1 and an execution-view
nonce of 0, the message of NonceInvariant is a line feed followed by "once mismatch ..."
and a line feed. It starts with a line feed and not with a tab, and it holds two line
feeds for a count of one. -/
theorem NonceInvariant_record_starts_with_line_feed :
    (nonceAcc sampleDeps nonceGapCtx).count = 1 ∧
    (nonceAcc sampleDeps nonceGapCtx).msg =
      "\nonce mismatch for address E: account nonce 1, evm nonce 0\n" ∧
    (nonceAcc sampleDeps nonceGapCtx).msg.data.head? = some (Char.ofNat 10) ∧
    (nonceAcc sampleDeps nonceGapCtx).msg.data.head? ≠ some (Char.ofNat 9) ∧
    (nonceAcc sampleDeps nonceGapCtx).msg.data.count (Char.ofNat 10) = 2 := by
  decide

/-- Claim C10 (full traversal): the callbacks of BalanceInvariant and NonceInvariant return
false, the signal not to stop, on every account and every accumulator; so
IterateAccounts, which stops as soon as the callback returns true, calls them on every
account of the list once, in order, and the accumulated result is the fold of the
callback over the whole list. -/
theorem callbacks_never_stop (d : Deps) (ctx : Context) :
    (∀ account s, (balanceCallback d ctx account s).2 = false) ∧
    (∀ account s, (nonceCallback d ctx account s).2 = false) ∧
    IterateAccounts ctx.accounts (traced (balanceCallback d ctx)) (Acc.init, []) =
      (balanceAcc d ctx, ctx.accounts) ∧
    IterateAccounts ctx.accounts (traced (nonceCallback d ctx)) (Acc.init, []) =
      (nonceAcc d ctx, ctx.accounts) ∧
    balanceAcc d ctx =
      ctx.accounts.foldl (fun s account => (balanceCallback d ctx account s).1) Acc.init ∧
    nonceAcc d ctx =
      ctx.accounts.foldl (fun s account => (nonceCallback d ctx account s).1) Acc.init := by
  refine ⟨balanceCallback_snd d ctx, nonceCallback_snd d ctx, ?_, ?_, ?_, ?_⟩
  · rw [IterateAccounts_traced _ (balanceCallback_snd d ctx)]
    rfl
  · rw [IterateAccounts_traced _ (nonceCallback_snd d ctx)]
    rfl
  · exact IterateAccounts_eq_foldl _ (balanceCallback_snd d ctx) _ _
  · exact IterateAccounts_eq_foldl _ (nonceCallback_snd d ctx) _ _

/-! ## Lemmas on the checks run on a world -/

theorem balanceCallbackM_other (d : Deps) (b : BaseAccount) (s : Acc × World) :
    balanceCallbackM d (.other b) s = (s, false) := rfl

theorem nonceCallbackM_other (d : Deps) (b : BaseAccount) (s : Acc × World) :
    nonceCallbackM d (.other b) s = (s, false) := rfl

theorem balanceCallbackM_eth (d : Deps) (a : EthAccount) (s : Acc) (w : World) :
    balanceCallbackM d (.eth a) (s, w) =
      (((balanceCallback d w.ctx (.eth a) s).1,
        ⟨w.ctx, w.calls ++ [Call.GetParams, Call.GetBalance (d.EthAddress a)]⟩), false) := by
  simp only [balanceCallbackM, balanceCallback, Account.asEthAccount, GetParamsM, GetBalanceM,
    List.append_assoc, List.singleton_append]
  split <;> rfl

theorem nonceCallbackM_eth (d : Deps) (a : EthAccount) (s : Acc) (w : World) :
    nonceCallbackM d (.eth a) (s, w) =
      (((nonceCallback d w.ctx (.eth a) s).1,
        ⟨w.ctx, w.calls ++ [Call.GetNonce (d.EthAddress a)]⟩), false) := by
  simp only [nonceCallbackM, nonceCallback, Account.asEthAccount, GetNonceM]
  split <;> rfl

theorem balanceM_iterate (d : Deps) (l : List Account) (s : Acc) (w : World) :
    IterateAccounts l (balanceCallbackM d) (s, w) =
      (IterateAccounts l (balanceCallback d w.ctx) s,
        ⟨w.ctx, w.calls ++ balanceCalls d (ethAccounts l)⟩) := by
  induction l generalizing s w with
  | nil => simp [IterateAccounts, ethAccounts, balanceCalls]
  | cons x l ih =>
    cases x with
    | other b =>
      rw [IterateAccounts, IterateAccounts, balanceCallbackM_other, balanceCallback_other,
        ethAccounts_cons_other]
      simpa using ih s w
    | eth a =>
      rw [IterateAccounts, IterateAccounts, balanceCallbackM_eth, ethAccounts_cons_eth]
      simp only [balanceCallback_snd, Bool.false_eq_true, if_false, ih, balanceCalls,
        List.append_assoc, List.cons_append, List.nil_append]

theorem nonceM_iterate (d : Deps) (l : List Account) (s : Acc) (w : World) :
    IterateAccounts l (nonceCallbackM d) (s, w) =
      (IterateAccounts l (nonceCallback d w.ctx) s,
        ⟨w.ctx, w.calls ++ nonceCalls d (ethAccounts l)⟩) := by
  induction l generalizing s w with
  | nil => simp [IterateAccounts, ethAccounts, nonceCalls]
  | cons x l ih =>
    cases x with
    | other b =>
      rw [IterateAccounts, IterateAccounts, nonceCallbackM_other, nonceCallback_other,
        ethAccounts_cons_other]
      simpa using ih s w
    | eth a =>
      rw [IterateAccounts, IterateAccounts, nonceCallbackM_eth, ethAccounts_cons_eth]
      simp only [nonceCallback_snd, Bool.false_eq_true, if_false, ih, nonceCalls,
        List.append_assoc, List.cons_append, List.nil_append]

theorem BalanceInvariantM_eq (d : Deps) (w : World) :
    BalanceInvariantM d w =
      (BalanceInvariant d w.ctx, ⟨w.ctx, w.calls ++ balanceCalls d (ethAccounts w.ctx.accounts)⟩) := by
  simp only [BalanceInvariantM, balanceM_iterate]
  rfl

theorem NonceInvariantM_eq (d : Deps) (w : World) :
    NonceInvariantM d w =
      (NonceInvariant d w.ctx, ⟨w.ctx, w.calls ++ nonceCalls d (ethAccounts w.ctx.accounts)⟩) := by
  simp only [NonceInvariantM, nonceM_iterate]
  rfl

theorem count_GetParams_balanceCalls (d : Deps) (l : List EthAccount) :
    (balanceCalls d l).count Call.GetParams = l.length := by
  induction l with
  | nil => rfl
  | cons a l ih => simp [balanceCalls, ih]

theorem count_GetParams_nonceCalls (d : Deps) (l : List EthAccount) :
    (nonceCalls d l).count Call.GetParams = 0 := by
  induction l with
  | nil => rfl
  | cons a l ih => simp [nonceCalls, ih]

theorem balanceAgree_lists (d : Deps) (ctx₁ ctx₂ : Context) (l₁ l₂ : List EthAccount)
    (h : List.Forall₂ (balanceAgree d ctx₁ ctx₂) l₁ l₂) :
    (l₁.filter (balanceDiffers d ctx₁)).map (fun a => "\t" ++ balanceLine d ctx₁ a ++ "\n") =
      (l₂.filter (balanceDiffers d ctx₂)).map (fun a => "\t" ++ balanceLine d ctx₂ a ++ "\n") ∧
    l₁.countP (balanceDiffers d ctx₁) = l₂.countP (balanceDiffers d ctx₂) := by
  induction h with
  | nil => exact ⟨rfl, rfl⟩
  | @cons a₁ a₂ t₁ t₂ hab _ ih =>
    obtain ⟨haddr, hder, hamt, hbal⟩ := hab
    have hd : balanceDiffers d ctx₁ a₁ = balanceDiffers d ctx₂ a₂ := by
      simp only [balanceDiffers, ledgerAmount, evmBalanceOf, hamt, hbal]
    have hl : balanceLine d ctx₁ a₁ = balanceLine d ctx₂ a₂ := by
      simp only [balanceLine, ledgerAmount, evmBalanceOf, haddr, hamt, hbal]
    by_cases hp : balanceDiffers d ctx₂ a₂ = true
    · have hp₁ : balanceDiffers d ctx₁ a₁ = true := hd.trans hp
      simp only [List.filter_cons, List.countP_cons, hp, hp₁, if_true, List.map_cons, ih.1,
        ih.2, hl, and_self]
    · have hp₁ : ¬ balanceDiffers d ctx₁ a₁ = true := fun h₁ => hp (hd.symm.trans h₁)
      simp only [List.filter_cons, List.countP_cons, hp, hp₁, if_false, Nat.add_zero]
      exact ih

theorem nonceAgree_lists (d : Deps) (ctx₁ ctx₂ : Context) (l₁ l₂ : List EthAccount)
    (h : List.Forall₂ (nonceAgree d ctx₁ ctx₂) l₁ l₂) :
    (l₁.filter (nonceDiffers d ctx₁)).map (nonceRecord d ctx₁) =
      (l₂.filter (nonceDiffers d ctx₂)).map (nonceRecord d ctx₂) ∧
    l₁.countP (nonceDiffers d ctx₁) = l₂.countP (nonceDiffers d ctx₂) := by
  induction h with
  | nil => exact ⟨rfl, rfl⟩
  | @cons a₁ a₂ t₁ t₂ hab _ ih =>
    obtain ⟨haddr, hseq, hnonce⟩ := hab
    have hd : nonceDiffers d ctx₁ a₁ = nonceDiffers d ctx₂ a₂ := by
      simp only [nonceDiffers, evmNonceOf, hseq, hnonce]
    have hl : nonceRecord d ctx₁ a₁ = nonceRecord d ctx₂ a₂ := by
      simp only [nonceRecord, evmNonceOf, haddr, hseq, hnonce]
    by_cases hp : nonceDiffers d ctx₂ a₂ = true
    · have hp₁ : nonceDiffers d ctx₁ a₁ = true := hd.trans hp
      simp only [List.filter_cons, List.countP_cons, hp, hp₁, if_true, List.map_cons, ih.1,
        ih.2, hl, and_self]
    · have hp₁ : ¬ nonceDiffers d ctx₁ a₁ = true := fun h₁ => hp (hd.symm.trans h₁)
      simp only [List.filter_cons, List.countP_cons, hp, hp₁, if_false, Nat.add_zero]
      exact ih

/-! ## The claims on state, registration and information flow -/

/-- Claim C11 (read-only): with the accounts, the parameters and the execution-view balances
and nonces as explicit state threaded through every accessor call, a run of
BalanceInvariant or of NonceInvariant ends in a world whose stores are those it
started from, for every initial world, and returns what the check returns as a
function of those stores. -/
theorem invariants_read_only (d : Deps) (w : World) :
    (BalanceInvariantM d w).2.ctx = w.ctx ∧
    (NonceInvariantM d w).2.ctx = w.ctx ∧
    (BalanceInvariantM d w).1 = BalanceInvariant d w.ctx ∧
    (NonceInvariantM d w).1 = NonceInvariant d w.ctx := by
  rw [BalanceInvariantM_eq, NonceInvariantM_eq]
  exact ⟨rfl, rfl, rfl, rfl⟩

/-- Claim C12: RegisterInvariants appends two routes to the registry and nothing else, both
under the module name: first the route "balance" bound to BalanceInvariant, then the
route "nonce" bound to NonceInvariant. On the scenario of accounts A, B and C the
invariant under "balance" reports the balance mismatch of B and the one under "nonce"
reports none. -/
theorem RegisterInvariants_routes (d : Deps) (ir : InvariantRegistry) :
    RegisterInvariants d ir =
      ir ++ [⟨d.ModuleName, "balance", BalanceInvariant d⟩,
        ⟨d.ModuleName, "nonce", NonceInvariant d⟩] ∧
    (RegisterInvariants d ir).length = ir.length + 2 ∧
    (RegisterInvariants sampleDeps []).map
        (fun r => (r.moduleName, r.route, r.invar scenarioCtx)) =
      [("evm", "balance",
          "evm: balance invariant\naccount balances mismatches found 1\n\tbalance mismatch for address B: account balance 50, evm balance 40\n\n",
          true),
        ("evm", "nonce", "evm: nonce invariant\naccount nonces mismatches found 0\n\n", false)] := by
  refine ⟨?_, ?_, by decide⟩
  · simp only [RegisterInvariants, RegisterRoute, List.append_assoc, List.singleton_append]
    rfl
  · simp [RegisterInvariants, RegisterRoute]

/-- Claim C13, as stated, fails on the code: in the scenario of accounts A, B and C one run of
BalanceInvariant reads the parameters twice, and on a store without EthAccount it does
not read them at all. -/
theorem BalanceInvariant_params_reads_not_one :
    (BalanceInvariantM sampleDeps ⟨scenarioCtx, []⟩).2.calls.count Call.GetParams = 2 ∧
    (BalanceInvariantM sampleDeps ⟨scenarioCtx, []⟩).2.calls.count Call.GetParams ≠ 1 ∧
    (BalanceInvariantM sampleDeps ⟨noEthCtx, []⟩).2.calls.count Call.GetParams = 0 := by
  decide

/-- Claim C13, amended: one run of BalanceInvariant reads the parameters once for each
EthAccount the traversal yields, right before it reads the balance of that account,
and not for the other accounts; so the number of reads is the number of EthAccounts
in the account list. -/
theorem BalanceInvariant_params_reads (d : Deps) (w : World) :
    (BalanceInvariantM d w).2.calls = w.calls ++ balanceCalls d (ethAccounts w.ctx.accounts) ∧
    (BalanceInvariantM d w).2.calls.count Call.GetParams =
      w.calls.count Call.GetParams + (ethAccounts w.ctx.accounts).length := by
  rw [BalanceInvariantM_eq]
  refine ⟨rfl, ?_⟩
  simp only [List.count_append, count_GetParams_balanceCalls]

/-- Claim C14 (noninterference): when the EthAccounts of two contexts agree, one by one in
traversal order, on the address, the derived address, the ledger amount in the
configured denomination and the execution-view balance, BalanceInvariant returns the
same pair on both, whatever the other coins, the sequence numbers, the nonces and the
accounts that are not EVM-capable; when they agree on the address, the sequence number
and the execution-view nonce, NonceInvariant returns the same pair on both, whatever
the coins, the balances and the configured denomination. -/
theorem invariants_noninterference (d : Deps) (ctx₁ ctx₂ : Context) :
    (List.Forall₂ (balanceAgree d ctx₁ ctx₂) (ethAccounts ctx₁.accounts)
        (ethAccounts ctx₂.accounts) →
      BalanceInvariant d ctx₁ = BalanceInvariant d ctx₂) ∧
    (List.Forall₂ (nonceAgree d ctx₁ ctx₂) (ethAccounts ctx₁.accounts)
        (ethAccounts ctx₂.accounts) →
      NonceInvariant d ctx₁ = NonceInvariant d ctx₂) := by
  constructor
  · intro h
    have hl := balanceAgree_lists d ctx₁ ctx₂ _ _ h
    simp only [BalanceInvariant, balanceAcc_eq, hl.1, hl.2]
  · intro h
    have hl := nonceAgree_lists d ctx₁ ctx₂ _ _ h
    simp only [NonceInvariant, nonceAcc_eq, hl.1, hl.2]

/-- Witness of C14: the scenario against a context that differs in other coins, sequence
numbers, nonces and accounts that are not EVM-capable, and the context with a nonce gap
against one that differs in coins, balances and the configured denomination. -/
theorem invariants_noninterference_witness :
    BalanceInvariant sampleDeps scenarioCtx = BalanceInvariant sampleDeps balanceTwinCtx ∧
    NonceInvariant sampleDeps nonceGapCtx = NonceInvariant sampleDeps nonceTwinCtx :=
  ⟨(invariants_noninterference sampleDeps scenarioCtx balanceTwinCtx).1
      (List.Forall₂.cons ⟨rfl, rfl, by decide, by decide⟩
        (List.Forall₂.cons ⟨rfl, rfl, by decide, by decide⟩ List.Forall₂.nil)),
    (invariants_noninterference sampleDeps nonceGapCtx nonceTwinCtx).2
      (List.Forall₂.cons ⟨rfl, rfl, by decide⟩ List.Forall₂.nil)⟩

end Keeper
